import Mathlib

/-!
Verification of the kernelstub drive/partition-resolution and boot-entry
reconciliation subsystem.  Definitions are shallow embeddings of the Python
source (`kernelstub/kernelstub.py`, `kernelstub/mbdrive.py`); each definition's
doc comment cites the function it embeds.  External tools (`efibootmgr`,
`lsblk`) and the missing `kernelstub/util.py` module are modelled explicitly
where a claim depends on them.
-/

namespace Kernelstub

/-! ## Python string primitives -/

/-- Characters treated as whitespace by Python's `str.split()` (ASCII range;
`/proc/partitions` and tool output only contain these). -/
def pyWhitespace (c : Char) : Bool :=
  c = ' ' || c = '\t' || c = '\n' || c = '\r' || c = '\x0b' || c = '\x0c'

/-- Worker for `pySplit`: accumulates the current field in reverse. -/
def splitWSAux : List Char → List Char → List (List Char)
  | [], acc => if acc = [] then [] else [acc.reverse]
  | c :: cs, acc =>
    if pyWhitespace c then
      if acc = [] then splitWSAux cs []
      else acc.reverse :: splitWSAux cs []
    else splitWSAux cs (c :: acc)

/-- Python `s.split()` with no separator: split on runs of whitespace,
producing no empty fields. -/
def pySplit (s : String) : List String :=
  (splitWSAux s.toList []).map String.mk

/-- Worker for `pySplitNl`. -/
def splitNlAux : List Char → List Char → List (List Char)
  | [], acc => [acc.reverse]
  | c :: cs, acc =>
    if c = '\n' then acc.reverse :: splitNlAux cs []
    else splitNlAux cs (c :: acc)

/-- Python `s.split('\n')`: split on each newline, keeping empty fields. -/
def pySplitNl (s : String) : List String :=
  (splitNlAux s.toList []).map String.mk

/-- Whether `l` starts with `n` (Python `str.startswith` on char lists). -/
def listStarts : List Char → List Char → Bool
  | _, [] => true
  | [], _ :: _ => false
  | c :: cs, d :: ds => c = d && listStarts cs ds

/-- Whether `n` occurs contiguously inside `l` (Python's `n in l` on strings). -/
def listHasSub : List Char → List Char → Bool
  | [], n => n = ([] : List Char)
  | c :: cs, n => listStarts (c :: cs) n || listHasSub cs n

/-- Python `needle in hay` for strings. -/
def strHasSub (hay needle : String) : Bool :=
  listHasSub hay.toList needle.toList

/-- `needle` is a contiguous substring of `hay`. -/
def Contains (hay needle : String) : Prop :=
  ∃ pre post, hay.toList = pre ++ needle.toList ++ post

theorem listStarts_iff (l n : List Char) :
    listStarts l n = true ↔ ∃ t, l = n ++ t := by
  induction n generalizing l with
  | nil => simp [listStarts]
  | cons d ds ih =>
    cases l with
    | nil => simp [listStarts]
    | cons c cs =>
      simp only [listStarts, Bool.and_eq_true, decide_eq_true_eq, ih, List.cons_append]
      constructor
      · rintro ⟨rfl, t, rfl⟩; exact ⟨t, rfl⟩
      · rintro ⟨t, h⟩
        injection h with h1 h2
        exact ⟨h1, t, h2⟩

theorem listHasSub_iff (l n : List Char) :
    listHasSub l n = true ↔ ∃ pre post, l = pre ++ n ++ post := by
  induction l with
  | nil =>
    simp only [listHasSub, decide_eq_true_eq]
    constructor
    · rintro rfl; exact ⟨[], [], rfl⟩
    · rintro ⟨pre, post, h⟩
      rcases List.append_eq_nil.mp h.symm with ⟨h1, h2⟩
      exact (List.append_eq_nil.mp h1).2
  | cons c cs ih =>
    simp only [listHasSub, Bool.or_eq_true, listStarts_iff, ih]
    constructor
    · rintro (⟨t, h⟩ | ⟨pre, post, h⟩)
      · exact ⟨[], t, by simp [h]⟩
      · exact ⟨c :: pre, post, by simp [h]⟩
    · rintro ⟨pre, post, h⟩
      cases pre with
      | nil => exact Or.inl ⟨post, by simpa using h⟩
      | cons p ps =>
        injection h with h1 h2
        exact Or.inr ⟨ps, post, h2⟩

theorem strHasSub_iff (hay needle : String) :
    strHasSub hay needle = true ↔ Contains hay needle :=
  listHasSub_iff hay.toList needle.toList

/-- The empty string is a substring of everything. -/
theorem strHasSub_empty (hay : String) : strHasSub hay "" = true := by
  refine (strHasSub_iff hay "").mpr ⟨[], hay.toList, ?_⟩
  simp [String.toList]

theorem strToList_append (s t : String) : (s ++ t).toList = s.toList ++ t.toList := by
  cases s; cases t; rfl

/-! ## NVRAM entry search (`kernelstub.py` `find_os_entry`, lines 125-134) -/

/-- Worker: scans `nvram` keeping the running index `i`, exactly as the
source's `findIndex` counter (incremented only when a line does not match). -/
def findFromIdx : List String → String → Int → Int
  | [], _, _ => -1
  | l :: ls, lab, i => if strHasSub l lab then i else findFromIdx ls lab (i + 1)

/-- `find_os_entry(nvram, osLabel)` (`kernelstub.py` lines 125-134): index of
the first line containing `osLabel` as a substring, `-1` when none does. -/
def find_os_entry (nvram : List String) (osLabel : String) : Int :=
  findFromIdx nvram osLabel 0

/-- `str(line)[4:8]`, the boot-number slice used at `kernelstub.py` line 313. -/
def strSlice48 (s : String) : String :=
  String.mk ((s.toList.drop 4).take 4)

theorem findFromIdx_range (l : List String) (lab : String) (i : Int) :
    findFromIdx l lab i = -1 ∨
      ∃ m : ℕ, findFromIdx l lab i = i + m ∧ m < l.length := by
  induction l generalizing i with
  | nil => exact Or.inl rfl
  | cons s ls ih =>
    by_cases hs : strHasSub s lab = true
    · exact Or.inr ⟨0, by simp [findFromIdx, hs], by simp⟩
    · rcases ih (i + 1) with h | ⟨m, hm, hlt⟩
      · exact Or.inl (by simp [findFromIdx, hs, h])
      · refine Or.inr ⟨m + 1, ?_, by simp; omega⟩
        simp only [findFromIdx, hs, if_false]
        rw [hm]; push_cast; ring

theorem findFromIdx_neg_iff (l : List String) (lab : String) (i : Int) (hi : 0 ≤ i) :
    findFromIdx l lab i = -1 ↔ ∀ s ∈ l, strHasSub s lab = false := by
  induction l generalizing i with
  | nil => simp [findFromIdx]
  | cons s ls ih =>
    by_cases hs : strHasSub s lab = true
    · simp only [findFromIdx, hs, if_true]
      constructor
      · intro h; omega
      · intro h; exact absurd hs (by simp [h s (List.mem_cons_self s ls)])
    · simp only [findFromIdx]
      rw [if_neg hs, ih (i + 1) (by omega)]
      constructor
      · intro h t ht
        rcases List.mem_cons.mp ht with rfl | ht'
        · exact Bool.eq_false_iff.mpr hs
        · exact h t ht'
      · intro h t ht; exact h t (List.mem_cons_of_mem s ht)

theorem findFromIdx_coe_iff (l : List String) (lab : String) (i : Int) (hi : 0 ≤ i)
    (k : ℕ) :
    findFromIdx l lab i = i + k ↔
      ((∃ s, l[k]? = some s ∧ strHasSub s lab = true) ∧
        ∀ s ∈ l.take k, strHasSub s lab = false) := by
  induction l generalizing i k with
  | nil =>
    simp only [findFromIdx, List.getElem?_nil, List.take_nil]
    constructor
    · intro h; omega
    · rintro ⟨⟨s, hs, _⟩, _⟩; cases hs
  | cons s ls ih =>
    by_cases hs : strHasSub s lab = true
    · simp only [findFromIdx, hs, if_true]
      cases k with
      | zero =>
        simp [hs]
      | succ j =>
        constructor
        · intro h; omega
        · rintro ⟨_, hall⟩
          exact absurd hs (by
            simp [hall s (by simp [List.take_succ_cons])])
    · simp only [findFromIdx]
      rw [if_neg hs]
      cases k with
      | zero =>
        constructor
        · intro h
          rcases findFromIdx_range ls lab (i + 1) with h' | ⟨m, hm, _⟩
          · omega
          · rw [hm] at h; omega
        · rintro ⟨⟨t, ht, htt⟩, _⟩
          simp only [List.getElem?_cons_zero, Option.some.injEq] at ht
          subst ht; exact absurd htt (by simp [hs])
      | succ j =>
        have : i + (↑(j + 1) : ℤ) = (i + 1) + j := by push_cast; ring
        rw [this, ih (i + 1) (by omega) j]
        simp only [List.getElem?_cons_succ, List.take_succ_cons, List.mem_cons]
        constructor
        · rintro ⟨hfound, hall⟩
          refine ⟨hfound, ?_⟩
          rintro t (rfl | ht)
          · exact Bool.eq_false_iff.mpr hs
          · exact hall t ht
        · rintro ⟨hfound, hall⟩
          exact ⟨hfound, fun t ht => hall t (Or.inr ht)⟩

/-- Case analysis on `find_os_entry`: either no line matches and the result is
`-1`, or the result is the index of the first matching line. -/
theorem find_os_entry_cases (nvram : List String) (lab : String) :
    (find_os_entry nvram lab = -1 ∧ ∀ s ∈ nvram, strHasSub s lab = false) ∨
      (∃ k : ℕ, find_os_entry nvram lab = (k : ℤ) ∧ k < nvram.length ∧
        (∃ s, nvram[k]? = some s ∧ strHasSub s lab = true) ∧
        ∀ s ∈ nvram.take k, strHasSub s lab = false) := by
  rcases findFromIdx_range nvram lab 0 with h | ⟨m, hm, hlt⟩
  · exact Or.inl ⟨h, (findFromIdx_neg_iff nvram lab 0 le_rfl).mp h⟩
  · rw [zero_add] at hm
    have := (findFromIdx_coe_iff nvram lab 0 le_rfl m).mp (by rw [hm]; ring)
    exact Or.inr ⟨m, hm, hlt, this.1, this.2⟩

/-! ## Python list indexing and the firmware backend model -/

/-- Python `l[i]` on lists: non-negative indices from the front, negative
indices from the back, `none` for an `IndexError`. -/
def pyIdx (l : List String) (i : Int) : Option String :=
  if 0 ≤ i then l[i.toNat]?
  else if (-i).toNat ≤ l.length then l[l.length - (-i).toNat]? else none

/-- `str(line)[0:4]`, used to recognise firmware entry lines (`BootNNNN*`). -/
def strTake4 (s : String) : String :=
  String.mk (s.toList.take 4)

/-- Modelled from the spec: the external firmware boot manager (`efibootmgr`,
§3 BootEntry / §6) renders one entry as the line `BootNNNN* <label>`. -/
def mkEntryLine (num label : String) : String :=
  "Boot" ++ num ++ "* " ++ label

/-- Modelled from the spec: `efibootmgr -B -b <num>` (§4.4 `delete`) removes
from the listing the entry lines carrying boot number `num`. -/
def fwDelete (num : String) (nvram : List String) : List String :=
  nvram.filter fun l => !(strTake4 l = "Boot" && strSlice48 l = num)

/-- Modelled from the spec: `efibootmgr -c ...` (§4.4 `add`) appends a fresh
entry whose boot number `num` is assigned by the firmware. -/
def fwAdd (num label : String) (nvram : List String) : List String :=
  nvram ++ [mkEntryLine num label]

/-- One reconciliation step over the boot-entry listing, embedding
`kernelstub.py` `main` lines 311-313 and 356-369: find the label, extract the
boot number from the found line (`[4:8]`), delete it when found, then add a
fresh entry.  `none` models the `IndexError` the source would hit at line 313
on an empty listing (`nvram[-1]`). -/
def reconcile (nvram : List String) (osLabel freshNum : String) : Option (List String) :=
  match pyIdx nvram (find_os_entry nvram osLabel) with
  | none => none
  | some entryLine =>
    some (fwAdd freshNum osLabel
      (if 0 ≤ find_os_entry nvram osLabel then fwDelete (strSlice48 entryLine) nvram
       else nvram))

/-- Number of lines of the listing containing `lab` as a substring. -/
def matchCount (nvram : List String) (lab : String) : ℕ :=
  (nvram.filter fun l => strHasSub l lab).length

theorem pyIdx_coe (l : List String) (k : ℕ) : pyIdx l (k : ℤ) = l[k]? := by
  simp [pyIdx]

theorem pyIdx_neg_one (l : List String) (h : l ≠ []) :
    pyIdx l (-1) = l[l.length - 1]? := by
  have hlen : 1 ≤ l.length := List.length_pos.mpr h
  simp only [pyIdx]
  rw [if_neg (by omega), if_pos (by simpa using hlen)]
  rfl

theorem mkEntryLine_hasSub (num label : String) :
    strHasSub (mkEntryLine num label) label = true := by
  refine (strHasSub_iff _ _).mpr ⟨("Boot" ++ num ++ "* ").toList, [], ?_⟩
  simp [mkEntryLine, strToList_append]

theorem strTake4_mkEntryLine (num label : String) :
    strTake4 (mkEntryLine num label) = "Boot" := by
  have h : (mkEntryLine num label).toList =
      'B' :: 'o' :: 'o' :: 't' :: (num.toList ++ ['*', ' '] ++ label.toList) := by
    unfold mkEntryLine
    rw [strToList_append, strToList_append, strToList_append]
    show ['B', 'o', 'o', 't'] ++ num.toList ++ ['*', ' '] ++ label.toList = _
    simp
  rw [strTake4, h]
  rfl

/-- A list of length at most one containing `s` is exactly `[s]`. -/
theorem filter_single_of_le_one {P : String → Bool} {l : List String} {s : String}
    (h1 : (l.filter P).length ≤ 1) (hs : s ∈ l) (hP : P s = true) :
    l.filter P = [s] := by
  have hmem : s ∈ l.filter P := List.mem_filter.mpr ⟨hs, hP⟩
  match hfl : l.filter P with
  | [] => rw [hfl] at hmem; cases hmem
  | [a] =>
    rw [hfl] at hmem
    simp only [List.mem_singleton] at hmem
    rw [hmem]
  | a :: b :: t => rw [hfl] at h1; simp at h1

/-- One reconciliation run on a well-formed listing succeeds and leaves the
fresh entry as the unique line containing the label. -/
theorem reconcile_establishes (nvram : List String) (lab n : String)
    (h0 : nvram ≠ [])
    (h1 : matchCount nvram lab ≤ 1)
    (h2 : ∀ l ∈ nvram, strHasSub l lab = true → strTake4 l = "Boot") :
    ∃ nv1, reconcile nvram lab n = some nv1 ∧ nv1 ≠ [] ∧
      nv1.filter (fun l => strHasSub l lab) = [mkEntryLine n lab] := by
  rcases find_os_entry_cases nvram lab with ⟨hfind, hall⟩ | ⟨k, hfind, hk, ⟨s, hsk, hsP⟩, _⟩
  · -- no existing match: the entry is appended to the unchanged listing
    have hpy : pyIdx nvram (find_os_entry nvram lab) = nvram[nvram.length - 1]? := by
      rw [hfind]; exact pyIdx_neg_one nvram h0
    have hsome : ∃ t, nvram[nvram.length - 1]? = some t := by
      have : nvram.length - 1 < nvram.length := by
        have := List.length_pos.mpr h0; omega
      exact ⟨nvram[nvram.length - 1], List.getElem?_eq_some.mpr ⟨this, rfl⟩⟩
    rcases hsome with ⟨t, ht⟩
    refine ⟨fwAdd n lab nvram, ?_, by simp [fwAdd], ?_⟩
    · rw [reconcile, hpy, ht]
      have hneg : ¬(0 : ℤ) ≤ find_os_entry nvram lab := by rw [hfind]; omega
      simp [hneg]
    · rw [fwAdd, List.filter_append]
      rw [List.filter_eq_nil_iff.mpr (by intro a ha; simp [hall a ha])]
      simp [mkEntryLine_hasSub]
  · -- an existing match: it is deleted, then the fresh entry appended
    have hsmem : s ∈ nvram := List.getElem?_mem hsk
    have hfilter : nvram.filter (fun l => strHasSub l lab) = [s] :=
      filter_single_of_le_one h1 hsmem hsP
    have hpy : pyIdx nvram (find_os_entry nvram lab) = some s := by
      rw [hfind, pyIdx_coe, hsk]
    have hdel : (fwDelete (strSlice48 s) nvram).filter (fun l => strHasSub l lab) = [] := by
      rw [List.filter_eq_nil_iff]
      intro a ha hP
      have hamem : a ∈ nvram := List.mem_of_mem_filter ha
      have haQ := (List.mem_filter.mp ha).2
      have : a ∈ nvram.filter (fun l => strHasSub l lab) :=
        List.mem_filter.mpr ⟨hamem, by simpa using hP⟩
      rw [hfilter] at this
      simp only [List.mem_singleton] at this
      subst this
      rw [h2 a hamem (by simpa using hP)] at haQ
      simp at haQ
    refine ⟨fwAdd n lab (fwDelete (strSlice48 s) nvram), ?_, by simp [fwAdd], ?_⟩
    · rw [reconcile, hpy]
      have hpos : (0 : ℤ) ≤ find_os_entry nvram lab := by rw [hfind]; omega
      simp [hpos]
    · rw [fwAdd, List.filter_append, hdel]
      simp [mkEntryLine_hasSub]

/-- C1 (amended): on a non-empty listing in which at most one line contains
the OS label and every line containing the label is a well-formed entry line
(starts with `"Boot"`), running the reconciliation step (find the label; if
found, delete that entry's boot number; then add a fresh entry) twice with
unchanged inputs leaves exactly one boot-entry line containing the OS label. -/
theorem reconcile_twice_unique_match (nvram : List String) (lab n1 n2 : String)
    (h0 : nvram ≠ [])
    (h1 : matchCount nvram lab ≤ 1)
    (h2 : ∀ l ∈ nvram, strHasSub l lab = true → strTake4 l = "Boot") :
    ∃ nv1 nv2, reconcile nvram lab n1 = some nv1 ∧ reconcile nv1 lab n2 = some nv2 ∧
      matchCount nv2 lab = 1 := by
  obtain ⟨nv1, hr1, hne1, hf1⟩ := reconcile_establishes nvram lab n1 h0 h1 h2
  have h1' : matchCount nv1 lab ≤ 1 := by unfold matchCount; rw [hf1]; simp
  have h2' : ∀ l ∈ nv1, strHasSub l lab = true → strTake4 l = "Boot" := by
    intro l hl hP
    have hmem : l ∈ nv1.filter (fun l => strHasSub l lab) :=
      List.mem_filter.mpr ⟨hl, by simpa using hP⟩
    rw [hf1] at hmem
    simp only [List.mem_singleton] at hmem
    subst hmem
    exact strTake4_mkEntryLine n1 lab
  obtain ⟨nv2, hr2, _, hf2⟩ := reconcile_establishes nv1 lab n2 hne1 h1' h2'
  refine ⟨nv1, nv2, hr1, hr2, ?_⟩
  unfold matchCount; rw [hf2]; rfl

/-- C1 witness: a concrete two-run reconciliation ending with exactly one
matching entry line. -/
theorem reconcile_twice_unique_match_witness :
    ∃ nv1 nv2, reconcile ["Boot0000* Windows"] "Ubuntu" "0001" = some nv1 ∧
      reconcile nv1 "Ubuntu" "0002" = some nv2 ∧ matchCount nv2 "Ubuntu" = 1 :=
  reconcile_twice_unique_match ["Boot0000* Windows"] "Ubuntu" "0001" "0002"
    (by decide) (by decide) (by decide)

/-- C1 counterexample: on a listing where two lines already contain the label,
two reconciliation runs leave two matching lines, not one, refuting the claim
as universally stated. -/
theorem reconcile_twice_two_matches :
    reconcile ["Boot0000* U", "Boot0001* U"] "U" "0002"
        = some ["Boot0001* U", "Boot0002* U"] ∧
      reconcile ["Boot0001* U", "Boot0002* U"] "U" "0003"
        = some ["Boot0002* U", "Boot0003* U"] ∧
      matchCount ["Boot0002* U", "Boot0003* U"] "U" = 2 := by
  refine ⟨?_, ?_, ?_⟩ <;> decide

/-- C6: `find_os_entry` returns the 0-based index of the first line containing
the label as a substring and `-1` when no line does; on the listing
`["Boot0000* Windows", "Boot0001* Ubuntu 22.04"]` with label `"Ubuntu 22.04"`
it returns 1, and the boot-number slice `[4:8]` of that line is `"0001"`. -/
theorem find_os_entry_spec :
    (∀ hay needle : String, strHasSub hay needle = true ↔ Contains hay needle) ∧
    (∀ (nvram : List String) (lab : String),
      find_os_entry nvram lab = -1 ↔ ∀ l ∈ nvram, ¬Contains l lab) ∧
    (∀ (nvram : List String) (lab : String) (k : ℕ),
      find_os_entry nvram lab = (k : ℤ) ↔
        ((∃ s, nvram[k]? = some s ∧ Contains s lab) ∧
          ∀ s ∈ nvram.take k, ¬Contains s lab)) ∧
    find_os_entry ["Boot0000* Windows", "Boot0001* Ubuntu 22.04"] "Ubuntu 22.04" = 1 ∧
    strSlice48 "Boot0001* Ubuntu 22.04" = "0001" := by
  have conv : ∀ lab s : String, strHasSub s lab = false ↔ ¬Contains s lab := by
    intro lab s
    rw [Bool.eq_false_iff, Ne, strHasSub_iff]
  refine ⟨strHasSub_iff, ?_, ?_, by decide, by decide⟩
  · intro nvram lab
    rw [find_os_entry, findFromIdx_neg_iff nvram lab 0 le_rfl]
    simp only [conv]
  · intro nvram lab k
    have h := findFromIdx_coe_iff nvram lab 0 le_rfl k
    rw [zero_add] at h
    rw [find_os_entry, h]
    simp only [strHasSub_iff, conv]

/-- C6 witness: the characterization applied to a concrete listing in which
no line contains the label. -/
theorem find_os_entry_spec_witness :
    find_os_entry ["Boot0000* Windows"] "Ubuntu 22.04" = -1 :=
  (find_os_entry_spec.2.1 ["Boot0000* Windows"] "Ubuntu 22.04").mpr (by
    intro l hl hc
    rw [List.mem_singleton] at hl
    subst hl
    exact absurd ((strHasSub_iff _ _).mpr hc) (by decide))

/-- C10: with the empty label, `find_os_entry` returns index 0 on any
non-empty listing, since the empty string is a substring of every line. -/
theorem find_os_entry_empty_label (nvram : List String) (h : nvram ≠ []) :
    find_os_entry nvram "" = 0 ∧ ∀ l : String, strHasSub l "" = true := by
  refine ⟨?_, strHasSub_empty⟩
  cases nvram with
  | nil => exact absurd rfl h
  | cons l ls => simp [find_os_entry, findFromIdx, strHasSub_empty l]

/-- C10 witness: the empty label matches the first entry of a concrete
listing. -/
theorem find_os_entry_empty_label_witness :
    find_os_entry ["Boot0000* Windows", "Boot0001* Ubuntu 22.04"] "" = 0 ∧
      ∀ l : String, strHasSub l "" = true :=
  find_os_entry_empty_label ["Boot0000* Windows", "Boot0001* Ubuntu 22.04"] (by decide)

/-! ## Orchestrator tail (`kernelstub.py` `main`, lines 311-380) -/

/-- NVRAM mutations issued by the orchestrator. -/
inductive NvramOp where
  | del : String → NvramOp
  | add : String → NvramOp
deriving DecidableEq

/-- `copy_files(src, dest, simulate)` (`kernelstub.py` lines 158-172): in
simulate mode it returns `True` without copying; otherwise `oracleOk` stands
for whether `shutil.copy` succeeds.  On failure the bare `except` handler runs
`raise FileOpsError(...)` (line 171), but `FileOpsError` is defined and
imported nowhere in the file, so evaluating that name raises `NameError`:
a result of `true` means the copy attempt raises `NameError`. -/
def copy_files_raises (simulate oracleOk : Bool) : Bool :=
  if simulate then false else !oracleOk

/-- Observable outcome of `main`'s tail: a normal return with its exit code,
or an uncaught exception; both record the NVRAM mutations already performed
when the outcome is reached.  `indexError` is the line-313 crash on an empty
listing. -/
inductive MainOutcome where
  | ret : Int → List NvramOp → MainOutcome
  | nameError : List NvramOp → MainOutcome
  | indexError : MainOutcome
deriving DecidableEq

/-- The tail of `main` (`kernelstub.py` lines 311-380): look up the OS entry
and its boot number (lines 311-313), copy the kernel image, copy the initrd
image, delete a found entry and add a fresh one, copy `/proc/cmdline`, and
return 0.  When a copy raises, the corresponding `except FileOpsError:`
clause (lines 340, 349, 373) evaluates the undefined name `FileOpsError` and
itself raises `NameError`, so `main` crashes with an uncaught `NameError`:
`return 2`, `return 3`, and the non-fatal logging path are all unreachable. -/
def mainStuff (noRun kOk iOk cOk : Bool) (nvram : List String) (osLabel : String) :
    MainOutcome :=
  match pyIdx nvram (find_os_entry nvram osLabel) with
  | none => MainOutcome.indexError
  | some entryLine =>
    if copy_files_raises noRun kOk then MainOutcome.nameError []
    else if copy_files_raises noRun iOk then MainOutcome.nameError []
    else
      let ops := (if 0 ≤ find_os_entry nvram osLabel
                  then [NvramOp.del (strSlice48 entryLine)] else [])
          ++ [NvramOp.add osLabel]
      if copy_files_raises noRun cOk then MainOutcome.nameError ops
      else MainOutcome.ret 0 ops

theorem pyIdx_find_isSome (nvram : List String) (lab : String) (h : nvram ≠ []) :
    ∃ s, pyIdx nvram (find_os_entry nvram lab) = some s := by
  rcases find_os_entry_cases nvram lab with ⟨hfind, _⟩ | ⟨k, hfind, hk, ⟨s, hsk, _⟩, _⟩
  · rw [hfind, pyIdx_neg_one nvram h]
    have hlt : nvram.length - 1 < nvram.length := by
      have := List.length_pos.mpr h; omega
    exact ⟨nvram[nvram.length - 1], List.getElem?_eq_some.mpr ⟨hlt, rfl⟩⟩
  · exact ⟨s, by rw [hfind, pyIdx_coe, hsk]⟩

/-- C2: the claim matches the spec's intended exit-code design, but
`kernelstub.py` never defines or imports `FileOpsError`, so a failed copy
raises `NameError` from inside `copy_files`' handler and each
`except FileOpsError:` clause in `main` itself raises `NameError` when
evaluated: a kernel or initrd copy failure crashes `main` with an uncaught
`NameError` — before any NVRAM delete or add, but without returning 2 or 3 —
and a failed `/proc/cmdline` diagnostic copy likewise crashes the run instead
of being non-fatal; only the all-success run returns 0. -/
theorem main_copy_failure_crashes :
    mainStuff false false true true ["Boot0000* Windows"] "Ubuntu"
      = MainOutcome.nameError [] ∧
    mainStuff false true false true ["Boot0000* Windows"] "Ubuntu"
      = MainOutcome.nameError [] ∧
    mainStuff false true true false ["Boot0000* Windows"] "Ubuntu"
      = MainOutcome.nameError [NvramOp.add "Ubuntu"] ∧
    mainStuff false true true true ["Boot0000* Windows"] "Ubuntu"
      = MainOutcome.ret 0 [NvramOp.add "Ubuntu"] := by
  refine ⟨?_, ?_, ?_, ?_⟩ <;> decide

/-! ## Command execution and dry-run (`kernelstub.py` lines 56-62, 136-152) -/

/-- `run_command(command, simulate)` (`kernelstub.py` lines 56-62), threaded
through an explicit external world `σ`: `execExt` stands for
`subprocess.getoutput`, returning the tool output and the mutated world. -/
def run_command {σ : Type} (execExt : String → σ → String × σ)
    (command : String) (simulate : Bool) (st : σ) : String × σ :=
  if simulate = true then ("Simulating: " ++ command, st)
  else execExt command st

/-- `del_boot_entry(index, sim)` (`kernelstub.py` lines 136-138). -/
def del_boot_entry {σ : Type} (execExt : String → σ → String × σ)
    (index : String) (sim : Bool) (st : σ) : String × σ :=
  run_command execExt ("efibootmgr -B -b " ++ index) sim st

/-- `add_boot_entry(...)` (`kernelstub.py` lines 141-152), building the same
command string as the source. -/
def add_boot_entry {σ : Type} (execExt : String → σ → String × σ)
    (device partition label loader root initrd cmdline : String) (sim : Bool)
    (st : σ) : String × σ :=
  run_command execExt
    ("efibootmgr -d " ++ device ++ " -p " ++ partition ++ " -c -L \"" ++ label ++
      "\" -l " ++ loader ++ " -u \"root=UUID=" ++ root ++ " initrd=" ++ initrd ++
      " ro " ++ cmdline ++ "\"") sim st

/-- C7: with `dry_run` set, `delete` and `add` leave the external world (hence
the listing a subsequent `list()` query returns) unchanged for every possible
external-tool semantics, and return the `"Simulating: "` placeholder naming
the exact command that would have run. -/
theorem dry_run_is_frame {σ : Type} (execExt : String → σ → String × σ) (st : σ)
    (index device partition label loader root initrd cmdline : String) :
    (del_boot_entry execExt index true st).2 = st ∧
    (del_boot_entry execExt index true st).1
      = "Simulating: " ++ ("efibootmgr -B -b " ++ index) ∧
    (add_boot_entry execExt device partition label loader root initrd cmdline
        true st).2 = st ∧
    (add_boot_entry execExt device partition label loader root initrd cmdline
        true st).1
      = "Simulating: " ++ ("efibootmgr -d " ++ device ++ " -p " ++ partition ++
          " -c -L \"" ++ label ++ "\" -l " ++ loader ++ " -u \"root=UUID=" ++
          root ++ " initrd=" ++ initrd ++ " ro " ++ cmdline ++ "\"") ∧
    run_command execExt "efibootmgr" false (del_boot_entry execExt index true st).2
      = run_command execExt "efibootmgr" false st ∧
    run_command execExt "efibootmgr" false
        (add_boot_entry execExt device partition label loader root initrd cmdline
          true st).2
      = run_command execExt "efibootmgr" false st :=
  ⟨rfl, rfl, rfl, rfl, rfl, rfl⟩

/-- C7 witness: the frame property at a concrete fake firmware backend. -/
theorem dry_run_is_frame_witness :
    (del_boot_entry (fun _ (st : List String) => ("", st)) "0001" true
      ["Boot0001* U"]).2 = ["Boot0001* U"] :=
  (dry_run_is_frame (fun _ (st : List String) => ("", st)) ["Boot0001* U"]
    "0001" "d" "p" "l" "ld" "r" "i" "c").1

/-! ## Partition table parsing (`kernelstub.py` lines 74-101) -/

/-- Digit run after the first digit of a Python `int()` literal: digits with
single interior underscores. `acc` is the value read so far. -/
def pyIntLoop : List Char → Nat → Option Nat
  | [], acc => some acc
  | ['_'], _ => none
  | '_' :: c :: rest, acc =>
    if c.isDigit then pyIntLoop rest (acc * 10 + (c.toNat - 48)) else none
  | c :: rest, acc =>
    if c.isDigit then pyIntLoop rest (acc * 10 + (c.toNat - 48)) else none

/-- Non-empty digit run (with underscore separators) for Python `int()`. -/
def pyNatDigits : List Char → Option Nat
  | [] => none
  | c :: rest => if c.isDigit then pyIntLoop rest (c.toNat - 48) else none

/-- Python `int(s)` on a whitespace-free field: optional sign, then a
non-empty digit run; `none` models `ValueError`.  (Fields produced by
`str.split()` contain no whitespace, so `int()`'s stripping never fires.) -/
def pyInt (s : String) : Option Int :=
  match s.toList with
  | '+' :: rest => (pyNatDigits rest).map fun n => (n : Int)
  | '-' :: rest => (pyNatDigits rest).map fun n => -(n : Int)
  | cs => (pyNatDigits cs).map fun n => (n : Int)

/-- One line of `_parse_proc_partitions` (`kernelstub.py` lines 77-86):
`fields = line.split()`, then `int(fields[0])`, `int(fields[1])`,
`fields[3]`; any `ValueError`/`IndexError` skips the line silently. -/
def parseLine (line : String) : Option ((Int × Int) × String) := do
  let fields := pySplit line
  let f0 ← fields[0]?
  let tmaj ← pyInt f0
  let f1 ← fields[1]?
  let tmin ← pyInt f1
  let name ← fields[3]?
  pure ((tmaj, tmin), name)

/-- `_parse_proc_partitions` (`kernelstub.py` lines 74-88) over the lines of
the partition-table text: the accumulated `(major, minor) -> name` records in
insertion order. -/
def parse_proc_partitions (lines : List String) : List ((Int × Int) × String) :=
  lines.filterMap parseLine

/-- Python `dict` lookup over the insertion-ordered records (later lines
overwrite earlier ones for the same key); `none` models `KeyError`. -/
def dictLookup : List ((Int × Int) × String) → Int × Int → Option String
  | [], _ => none
  | (k, v) :: rest, q =>
    match dictLookup rest q with
    | some r => some r
    | none => if k = q then some v else none

/-- `get_drive_name` (`kernelstub.py` lines 90-94): the record at
`(major, 0)`. -/
def get_drive_name (tbl : List ((Int × Int) × String)) (major : Int) :
    Option String :=
  dictLookup tbl (major, 0)

/-- `get_part_name` (`kernelstub.py` lines 96-101): the record at
`(major, minor)`. -/
def get_part_name (tbl : List ((Int × Int) × String)) (major minor : Int) :
    Option String :=
  dictLookup tbl (major, minor)

theorem dictLookup_eq_none {tbl : List ((Int × Int) × String)} {q : Int × Int}
    (h : ∀ e ∈ tbl, e.1 ≠ q) : dictLookup tbl q = none := by
  induction tbl with
  | nil => rfl
  | cons e rest ih =>
    obtain ⟨k, v⟩ := e
    rw [dictLookup, ih fun e he => h e (List.mem_cons_of_mem _ he)]
    rw [if_neg (h (k, v) (List.mem_cons_self _ _))]

/-- C4: a whole-disk name query fails (`KeyError`, surfaced as `none`) when no
record carries key `(major, 0)`, and a partition name query fails when no
record carries key `(major, minor)`; in particular `(8, 0)` fails on the
parsed table holding only the line `"8 1 104857600 sda1"`. -/
theorem partition_queries_missing_key (tbl : List ((Int × Int) × String))
    (major minor : Int) :
    ((∀ e ∈ tbl, e.1 ≠ (major, 0)) → get_drive_name tbl major = none) ∧
    ((∀ e ∈ tbl, e.1 ≠ (major, minor)) → get_part_name tbl major minor = none) ∧
    get_drive_name (parse_proc_partitions ["8 1 104857600 sda1"]) 8 = none := by
  refine ⟨fun h => dictLookup_eq_none h, fun h => dictLookup_eq_none h, by decide⟩

/-- C4 witness: a concrete absent key makes both queries fail. -/
theorem partition_queries_missing_key_witness :
    get_drive_name (parse_proc_partitions ["8 1 104857600 sda1"]) 8 = none ∧
      get_part_name (parse_proc_partitions ["8 1 104857600 sda1"]) 8 2 = none :=
  ⟨(partition_queries_missing_key (parse_proc_partitions ["8 1 104857600 sda1"])
      8 2).2.2,
   (partition_queries_missing_key (parse_proc_partitions ["8 1 104857600 sda1"])
      8 2).2.1 (by decide)⟩

/-- C5: a line yields a record exactly when it has at least four
whitespace-delimited fields whose first two parse as integers, the record
being `(major, minor) ->` fourth field; all other lines are silently skipped;
and the scenario line `"8 1 104857600 sda1"` answers the `(8, 1)` query with
`"sda1"`. -/
theorem parse_partitions_shape :
    (∀ (line : String) (a b : Int) (name : String),
      parseLine line = some ((a, b), name) →
        4 ≤ (pySplit line).length ∧
        ∃ f0 f1, (pySplit line)[0]? = some f0 ∧ (pySplit line)[1]? = some f1 ∧
          pyInt f0 = some a ∧ pyInt f1 = some b ∧ (pySplit line)[3]? = some name) ∧
    (∀ (line : String) (f0 f1 f3 : String) (a b : Int),
      (pySplit line)[0]? = some f0 → (pySplit line)[1]? = some f1 →
      (pySplit line)[3]? = some f3 → pyInt f0 = some a → pyInt f1 = some b →
        parseLine line = some ((a, b), f3)) ∧
    (∀ lines : List String, parse_proc_partitions lines = lines.filterMap parseLine) ∧
    get_part_name (parse_proc_partitions ["8 1 104857600 sda1"]) 8 1 = some "sda1" := by
  refine ⟨?_, ?_, fun _ => rfl, by decide⟩
  · intro line a b name h
    rw [parseLine] at h
    rcases h0 : (pySplit line)[0]? with _ | f0
    · rw [h0] at h
      simp only [Option.bind_eq_bind, Option.none_bind] at h
      cases h
    · rw [h0] at h
      simp only [Option.bind_eq_bind, Option.some_bind] at h
      rcases ha : pyInt f0 with _ | a'
      · rw [ha] at h
        simp only [Option.bind_eq_bind, Option.none_bind] at h
        cases h
      · rw [ha] at h
        simp only [Option.bind_eq_bind, Option.some_bind] at h
        rcases h1 : (pySplit line)[1]? with _ | f1
        · rw [h1] at h
          simp only [Option.bind_eq_bind, Option.none_bind] at h
          cases h
        · rw [h1] at h
          simp only [Option.bind_eq_bind, Option.some_bind] at h
          rcases hb : pyInt f1 with _ | b'
          · rw [hb] at h
            simp only [Option.bind_eq_bind, Option.none_bind] at h
            cases h
          · rw [hb] at h
            simp only [Option.bind_eq_bind, Option.some_bind] at h
            rcases h3 : (pySplit line)[3]? with _ | f3
            · rw [h3] at h
              simp only [Option.bind_eq_bind, Option.none_bind] at h
              cases h
            · rw [h3] at h
              simp only [Option.bind_eq_bind, Option.some_bind, Option.pure_def,
                Option.some.injEq, Prod.mk.injEq] at h
              obtain ⟨⟨rfl, rfl⟩, rfl⟩ := h
              have hlen : 3 < (pySplit line).length := (List.getElem?_eq_some.mp h3).1
              exact ⟨by omega, f0, f1, rfl, rfl, ha, hb, rfl⟩
  · intro line f0 f1 f3 a b h0 h1 h3 ha hb
    simp [parseLine, h0, h1, h3, ha, hb]

/-- C5 witness: the scenario line parses to the `(8, 1) -> "sda1"` record. -/
theorem parse_partitions_shape_witness :
    parseLine "8 1 104857600 sda1" = some ((8, 1), "sda1") :=
  parse_partitions_shape.2.1 "8 1 104857600 sda1" "8" "1" "sda1" 8 1
    (by decide) (by decide) (by decide) (by decide) (by decide)

/-! ## Mount-table resolution (`mbdrive.py` lines 78-92 and 177-200) -/

/-- Modelled from the spec: one record of the mount table returned by
`util.get_drives()` (module not under `src/`), carrying node, mount point and
filesystem type (spec §3 MountRecord, §4.2). -/
structure MountRec where
  node : String
  mount_point : String
  fs_type : String
deriving DecidableEq

/-- `Drive.equate_node_mountpoint` (`mbdrive.py` lines 177-200): scan the
mount records in insertion order; the first record any of whose field values
equals `part` yields its `(node, mount_point)` pair.  `none` models the
`DriveError` raised when no record matches. -/
def equate_node_mountpoint : List MountRec → String → Option (String × String)
  | [], _ => none
  | r :: rest, part =>
    if r.node = part ∨ r.mount_point = part ∨ r.fs_type = part then
      some (r.node, r.mount_point)
    else equate_node_mountpoint rest part

/-- The attribute state of a `Drive` after `__init__`: the values of
`self._node` and `self._mount_point` (`none` when never assigned). -/
structure DriveState where
  node : Option String
  mount_point : Option String
deriving DecidableEq

/-- Python truthiness of an optional string (`None` and `""` are falsy). -/
def truthy : Option String → Bool
  | none => false
  | some s => !(s == "")

/-- `Drive.__init__` (`mbdrive.py` lines 78-92): each branch calls
`equate_node_mountpoint` for its error effect but discards the returned pair;
`self._node` and `self._mount_point` are never assigned.  The trailing
`if self.is_mounted:` block is skipped because `self.node` is `None`, which
is not a key of the mount table. -/
def drive_init (mtab : List MountRec) (node mount_point : Option String) :
    Except Unit DriveState := do
  if !truthy node && truthy mount_point then
    match equate_node_mountpoint mtab (mount_point.getD "") with
    | some _ => pure ()
    | none => throw ()
  if !truthy mount_point && truthy node then
    match equate_node_mountpoint mtab (node.getD "") with
    | some _ => pure ()
    | none => throw ()
  pure ⟨none, none⟩

/-- C3: constructing a `Drive` from a node alone or from its mount point
alone does NOT resolve the missing half: `__init__` discards the pair
returned by `equate_node_mountpoint` and never assigns the attributes, so
both `node` and `mount_point` remain `None` (while an unresolvable argument
does raise `DriveError`, matching the intended failure contract). -/
theorem drive_init_discards_resolution :
    drive_init [⟨"/dev/sda1", "/boot/efi", "vfat"⟩] (some "/dev/sda1") none
      = Except.ok ⟨none, none⟩ ∧
    drive_init [⟨"/dev/sda1", "/boot/efi", "vfat"⟩] none (some "/boot/efi")
      = Except.ok ⟨none, none⟩ ∧
    drive_init [⟨"/dev/sda1", "/boot/efi", "vfat"⟩] (some "/dev/sdz9") none
      = Except.error () := by
  refine ⟨rfl, rfl, rfl⟩

/-- C9 counterexample: the scan matches on every field value, so a node that
also occurs as an earlier record's mount point resolves to the earlier
record's pair, whose node differs from the query. -/
theorem equate_first_match_not_node :
    (∃ r ∈ ([⟨"/dev/a", "/mnt/b", "ext4"⟩, ⟨"/mnt/b", "/mnt/c", "ext4"⟩] :
        List MountRec), r.node = "/mnt/b") ∧
    equate_node_mountpoint
        [⟨"/dev/a", "/mnt/b", "ext4"⟩, ⟨"/mnt/b", "/mnt/c", "ext4"⟩] "/mnt/b"
      = some ("/dev/a", "/mnt/b") ∧
    ¬∃ m, equate_node_mountpoint
        [⟨"/dev/a", "/mnt/b", "ext4"⟩, ⟨"/mnt/b", "/mnt/c", "ext4"⟩] "/mnt/b"
      = some ("/mnt/b", m) := by
  refine ⟨⟨⟨"/mnt/b", "/mnt/c", "ext4"⟩, by decide, rfl⟩, rfl, ?_⟩
  rintro ⟨m, hm⟩
  rw [show equate_node_mountpoint
      [⟨"/dev/a", "/mnt/b", "ext4"⟩, ⟨"/mnt/b", "/mnt/c", "ext4"⟩] "/mnt/b"
      = some ("/dev/a", "/mnt/b") from rfl] at hm
  have hfst : "/dev/a" = "/mnt/b" := congrArg Prod.fst (Option.some.inj hm)
  exact absurd hfst (by decide)

/-- C9 (amended): when the queried node occurs only as a node and the
matching record's mount point occurs only as a mount point (no cross-field
collisions), and the record is the first carrying either value, `resolve`
returns the record's pair with node equal to the query, and feeding the mount
point back returns the same pair — the first match in insertion order wins. -/
theorem equate_node_mountpoint_roundtrip (pre post : List MountRec) (r : MountRec)
    (h1 : ∀ s ∈ pre ++ r :: post, s.mount_point ≠ r.node ∧ s.fs_type ≠ r.node)
    (h2 : ∀ s ∈ pre ++ r :: post, s.node ≠ r.mount_point ∧ s.fs_type ≠ r.mount_point)
    (h3 : ∀ s ∈ pre, s.node ≠ r.node)
    (h4 : ∀ s ∈ pre, s.mount_point ≠ r.mount_point) :
    equate_node_mountpoint (pre ++ r :: post) r.node = some (r.node, r.mount_point) ∧
    equate_node_mountpoint (pre ++ r :: post) r.mount_point
      = some (r.node, r.mount_point) := by
  induction pre with
  | nil =>
    have hr2 := h2 r (by simp)
    constructor
    · show equate_node_mountpoint (r :: post) r.node = _
      rw [equate_node_mountpoint, if_pos (Or.inl rfl)]
    · show equate_node_mountpoint (r :: post) r.mount_point = _
      rw [equate_node_mountpoint, if_pos (Or.inr (Or.inl rfl))]
  | cons s pre' ih =>
    have hs1 := h1 s (by simp)
    have hs2 := h2 s (by simp)
    have hs3 := h3 s (List.mem_cons_self s pre')
    have hs4 := h4 s (List.mem_cons_self s pre')
    have ih' := ih
      (fun t ht => h1 t (by simpa using Or.inr (by simpa using ht)))
      (fun t ht => h2 t (by simpa using Or.inr (by simpa using ht)))
      (fun t ht => h3 t (List.mem_cons_of_mem s ht))
      (fun t ht => h4 t (List.mem_cons_of_mem s ht))
    constructor
    · show equate_node_mountpoint (s :: (pre' ++ r :: post)) r.node = _
      rw [equate_node_mountpoint,
        if_neg (by push_neg; exact ⟨hs3, hs1.1, hs1.2⟩)]
      exact ih'.1
    · show equate_node_mountpoint (s :: (pre' ++ r :: post)) r.mount_point = _
      rw [equate_node_mountpoint,
        if_neg (by push_neg; exact ⟨hs2.1, hs4, hs2.2⟩)]
      exact ih'.2

/-- C9 witness: a concrete collision-free table round-trips. -/
theorem equate_node_mountpoint_roundtrip_witness :
    equate_node_mountpoint
        [⟨"/dev/sda1", "/", "ext4"⟩, ⟨"/dev/sda2", "/boot/efi", "vfat"⟩]
        "/dev/sda2" = some ("/dev/sda2", "/boot/efi") ∧
    equate_node_mountpoint
        [⟨"/dev/sda1", "/", "ext4"⟩, ⟨"/dev/sda2", "/boot/efi", "vfat"⟩]
        "/boot/efi" = some ("/dev/sda2", "/boot/efi") :=
  equate_node_mountpoint_roundtrip [⟨"/dev/sda1", "/", "ext4"⟩] []
    ⟨"/dev/sda2", "/boot/efi", "vfat"⟩
    (by decide) (by decide) (by decide) (by decide)

/-! ## UUID probe (`mbdrive.py` `Drive.uuid`, lines 135-151) -/

/-- Python `os.path.basename` for POSIX paths: the suffix after the last
slash. -/
def pyBasename (p : String) : String :=
  String.mk ((p.toList.reverse.takeWhile fun c => c ≠ '/').reverse)

/-- Possible outcomes of the `uuid` property. -/
inductive UuidOutcome where
  | found : String → UuidOutcome
  | noneRet : UuidOutcome
  | driveErr : UuidOutcome
  | crash : UuidOutcome
deriving DecidableEq

/-- The scan loop of `Drive.uuid` (`mbdrive.py` lines 146-149): the first
output line containing the node's basename yields `fs.split()[-1]`; a
matching line with no fields would raise an uncaught `IndexError` (`crash`);
falling off the loop returns Python `None` implicitly (`noneRet`). -/
def uuidScan (base : String) : List String → UuidOutcome
  | [] => UuidOutcome.noneRet
  | fs :: rest =>
    if strHasSub fs base then
      match (pySplit fs).getLast? with
      | some u => UuidOutcome.found u
      | none => UuidOutcome.crash
    else uuidScan base rest

/-- `Drive.uuid` (`mbdrive.py` lines 135-151): `probe` is the outcome of
`subprocess.run(['lsblk', '-f', '-o', 'NAME,UUID'])` — `none` when the
process cannot run (`OSError`, re-raised as `DriveError`), otherwise its
decoded stdout, split on newlines and scanned. -/
def drive_uuid (node : String) (probe : Option String) : UuidOutcome :=
  match probe with
  | none => UuidOutcome.driveErr
  | some out => uuidScan (pyBasename node) (pySplitNl out)

/-- C8: when the probe cannot run the property raises `DriveError`, and a
matching line yields its last field; but when no output line contains the
node's basename the property silently returns Python `None` (an undefined
value) instead of the explicit not-found failure the claim requires. -/
theorem drive_uuid_silent_none :
    drive_uuid "/dev/sda1" none = UuidOutcome.driveErr ∧
    drive_uuid "/dev/sda1" (some "NAME UUID\nsda1 1234-ABCD")
      = UuidOutcome.found "1234-ABCD" ∧
    drive_uuid "/dev/sda1" (some "NAME UUID\nsdb1 5678-CDEF")
      = UuidOutcome.noneRet := by
  refine ⟨rfl, by decide, by decide⟩

end Kernelstub
